import Mathlib

/-!
# Indexed Singleton (`Indexed Singleton/singleton.h`)

A shallow embedding of the header.  The header is a pair of templates, so the
embedding is parameterised by the program that uses it:

* a universe `τ` of (default-constructible) value types, each with the set of
  its objects and the body of its default constructor.  A constructor is user
  code: it may read and write the program globals, it may throw, and it may
  itself call `Singleton<U, j>::get()` and read or write the objects behind the
  references it holds;
* a template instantiation `Singleton<T, i>` is the pair `(T, i)`;
* the function-local static `instance` of `Singleton<T, i>::get` is one slot
  per instantiation, empty until its initialisation has completed.  When a
  constructor leaves by an exception the initialisation is not complete and it
  is attempted again the next time control passes through the declaration;
* a `T&` returned by `get` names the member `mStorage` of that static.

Re-entering the declaration of a static while it is being initialised is
undefined behaviour.  The programs described here are those in which the value
types are ranked so that a constructor calls `get` only for value types of
lower rank; no initialisation is then ever re-entered.

Threads are not modelled: every definition below is a sequential execution.
-/

set_option autoImplicit false

namespace Oscillations

/-- A template argument list `<T, i>`: one instantiation of `ProxyStorage` and
of `Singleton`.  The tag is a C++ `int` constant; the header does no arithmetic
on it, so it is kept as an integer without a width. -/
structure Key (τ : Type) where
  T : τ
  i : Int
  deriving DecidableEq

/-- Embeds `template<typename T, int index> struct ProxyStorage { T mStorage; }`. -/
structure ProxyStorage (T : Type) (index : Int) where
  mStorage : T

/-- Embeds `enum { mIndex = index };` of `ProxyStorage<T, index>`. -/
def ProxyStorage.mIndex (_T : Type) (index : Int) : Int := index

/-- A `T&` handed out by `Singleton<T, tag>::get()`: the lvalue
`instance.mStorage` of the static declared in that instantiation. -/
structure Ref {τ : Type} (T : τ) where
  tag : Int
  deriving DecidableEq

/-- The storage cell a reference points into. -/
def Ref.cell {τ : Type} {T : τ} (r : Ref T) : Key τ := ⟨T, r.tag⟩

/-- The body of a default constructor producing an object of type `α`, as the
sequence of its effects: finish with the constructed object, leave by an
exception, read or write the program globals, call `Singleton<U, j>::get()`
for a permitted value type `U` (continuing with the reference, or with the
exception that call threw, which the body may handle or throw on), read the
object behind a reference, or mutate it. -/
inductive Body (τ : Type) (G ε : Type) (Obj : τ → Type) (allowed : τ → Prop) (α : Type) :
    Type where
  | done (a : α)
  | raise (e : ε)
  | withGlobals (k : G → Body τ G ε Obj allowed α)
  | setGlobals (g : G) (k : Body τ G ε Obj allowed α)
  | get (U : τ) (h : allowed U) (j : Int) (k : Except ε (Ref U) → Body τ G ε Obj allowed α)
  | read (U : τ) (r : Ref U) (k : Option (Obj U) → Body τ G ε Obj allowed α)
  | modify (U : τ) (r : Ref U) (f : Obj U → Obj U) (k : Body τ G ε Obj allowed α)

/-- A constructor body that uses the program globals only: it calls no `get`
and touches no object behind a singleton reference. -/
inductive Body.GlobalsOnly {τ : Type} {G ε : Type} {Obj : τ → Type} {allowed : τ → Prop}
    {α : Type} : Body τ G ε Obj allowed α → Prop where
  | done (a : α) : GlobalsOnly (.done a)
  | raise (e : ε) : GlobalsOnly (.raise e)
  | withGlobals (k : G → Body τ G ε Obj allowed α) (h : ∀ g, GlobalsOnly (k g)) :
      GlobalsOnly (.withGlobals k)
  | setGlobals (g : G) (k : Body τ G ε Obj allowed α) (h : GlobalsOnly k) :
      GlobalsOnly (.setGlobals g k)

/-- The program around the header: its value types, the program globals that
constructors can touch, the exceptions they can throw, and for every value type
its objects, its rank and the body of its default constructor `T::T()`, which
may call `get` for value types of lower rank. -/
structure Env (τ : Type) where
  G : Type
  ε : Type
  Obj : τ → Type
  rank : τ → Nat
  ctor : (T : τ) → Body τ G ε Obj (fun U => rank U < rank T) (Obj T)

/-- Program state.  `statics k` is the function-local static `instance` of
`Singleton<k.T, k.i>::get` (`none` while its initialisation has not completed)
and `globals` the program globals.  Two ghost logs record the history, oldest
entry first: `ctorRuns` has one entry per run of a default constructor started
by `get`, and `getCalls` one entry per call of `get`, whether made by the
program or from inside a constructor. -/
structure World {τ : Type} (E : Env τ) where
  statics : (k : Key τ) → Option (ProxyStorage (E.Obj k.T) k.i)
  globals : E.G
  ctorRuns : List (Key τ)
  getCalls : List (Key τ)

/-- State at program start: no static has been reached yet. -/
def World.init {τ : Type} (E : Env τ) (g : E.G) : World E :=
  { statics := fun _ => none, globals := g, ctorRuns := [], getCalls := [] }

/-- Number of default-constructor runs performed so far for the pair `k`. -/
def World.ctorCount {τ : Type} [DecidableEq τ] {E : Env τ} (w : World E) (k : Key τ) : Nat :=
  w.ctorRuns.count k

/-- Ghost step: a call of `Singleton<k.T, k.i>::get()` is entered. -/
def World.logCall {τ : Type} {E : Env τ} (w : World E) (k : Key τ) : World E :=
  { w with getCalls := w.getCalls ++ [k] }

/-- Ghost step: a run of the default constructor for the static of `k` starts. -/
def World.logCtor {τ : Type} {E : Env τ} (w : World E) (k : Key τ) : World E :=
  { w with ctorRuns := w.ctorRuns ++ [k] }

/-- The initialisation of the static of `k` completes with the object `p`. -/
def World.store {τ : Type} [DecidableEq τ] {E : Env τ} (w : World E) (k : Key τ)
    (p : ProxyStorage (E.Obj k.T) k.i) : World E :=
  { w with statics := Function.update w.statics k (some p) }

/-- Reading through a reference: the object in the cell, if the cell holds one. -/
def Ref.read {τ : Type} {E : Env τ} {T : τ} (r : Ref T) (w : World E) : Option (E.Obj T) :=
  (w.statics ⟨T, r.tag⟩).map fun p => p.mStorage

/-- A caller mutating the object behind a reference. -/
def Ref.modify {τ : Type} [DecidableEq τ] {E : Env τ} {T : τ} (r : Ref T)
    (f : E.Obj T → E.Obj T) (w : World E) : World E :=
  { w with
    statics := Function.update w.statics ⟨T, r.tag⟩
      ((w.statics ⟨T, r.tag⟩).map fun p => ⟨f p.mStorage⟩) }

/-- Runs a constructor body.  `getU` is what a call of `Singleton<U, j>::get()`
made by the body does.  The state is returned also when the body throws. -/
def exec {τ : Type} [DecidableEq τ] (E : Env τ) {allowed : τ → Prop} {α : Type}
    (getU : (U : τ) → allowed U → Int → World E → Except E.ε (Ref U) × World E) :
    Body τ E.G E.ε E.Obj allowed α → World E → Except E.ε α × World E
  | .done a, w => (.ok a, w)
  | .raise e, w => (.error e, w)
  | .withGlobals k, w => exec E getU (k w.globals) w
  | .setGlobals g k, w => exec E getU k { w with globals := g }
  | .get U h j k, w => exec E getU (k (getU U h j w).1) (getU U h j w).2
  | .read _ r k, w => exec E getU (k (r.read w)) w
  | .modify _ r f k, w => exec E getU k (r.modify f w)

/-- The call `Singleton<T, i>::get()` as made from inside a constructor whose
value type has rank `n`; such a call has `E.rank T < n`.  It is `Singleton.get`
below (`getBelow_eq_get`), written by recursion on the bound so that nested
constructions are seen to end. -/
def getBelow {τ : Type} [DecidableEq τ] (E : Env τ) :
    (n : Nat) → (T : τ) → E.rank T < n → Int → World E → Except E.ε (Ref T) × World E
  | 0, _, h, _, _ => absurd h (Nat.not_lt_zero _)
  | n + 1, T, h, i, w =>
    match w.statics ⟨T, i⟩ with
    | some _ => (.ok ⟨i⟩, w.logCall ⟨T, i⟩)
    | none =>
      match exec E
          (fun U hU j => getBelow E n U (Nat.lt_of_lt_of_le hU (Nat.le_of_lt_succ h)) j)
          (E.ctor T) ((w.logCall ⟨T, i⟩).logCtor ⟨T, i⟩) with
      | (.ok obj, w₂) => (.ok ⟨i⟩, w₂.store ⟨T, i⟩ ⟨obj⟩)
      | (.error e, w₂) => (.error e, w₂)

/-- One run of the default constructor `T::T()`, started in the state `w`. -/
def ctorRun {τ : Type} [DecidableEq τ] (E : Env τ) (T : τ) (w : World E) :
    Except E.ε (E.Obj T) × World E :=
  exec E (fun U hU j => getBelow E (E.rank T) U hU j) (E.ctor T) w

/-- Embeds `Singleton<T, i>::get()`:
```
static ProxyStorage<T, i> instance;
return instance.mStorage;
```
If the static is already initialised the declaration is skipped.  Otherwise the
default constructor of `T` runs; when it completes the static is initialised,
when it throws the exception leaves `get` and the static stays uninitialised. -/
def Singleton.get {τ : Type} [DecidableEq τ] (E : Env τ) (T : τ) (i : Int) (w : World E) :
    Except E.ε (Ref T) × World E :=
  match w.statics ⟨T, i⟩ with
  | some _ => (.ok ⟨i⟩, w.logCall ⟨T, i⟩)
  | none =>
    match ctorRun E T ((w.logCall ⟨T, i⟩).logCtor ⟨T, i⟩) with
    | (.ok obj, w₂) => (.ok ⟨i⟩, w₂.store ⟨T, i⟩ ⟨obj⟩)
    | (.error e, w₂) => (.error e, w₂)

/-- Embeds `Singleton<T, i>::index()`: `return ProxyStorage<T, i>::mIndex;`.
The body names no object, so the state is passed through. -/
def Singleton.index {τ : Type} (E : Env τ) (T : τ) (i : Int) (w : World E) : Int × World E :=
  (ProxyStorage.mIndex (E.Obj T) i, w)

/-- The tag of a use site: `template<typename T, int i = 0>` lets the tag be
omitted, in which case it is `0`. -/
def tagOrDefault (i : Option Int) : Int := i.getD 0

/-- Embeds `template<typename T, int index = 0> using IndexedSingleton =
Singleton<T, index>;` followed by `::get()`. -/
def IndexedSingleton.get {τ : Type} [DecidableEq τ] (E : Env τ) (T : τ) (index : Option Int)
    (w : World E) : Except E.ε (Ref T) × World E :=
  Singleton.get E T (tagOrDefault index) w

/-- The alias `IndexedSingleton<T, index>` followed by `::index()`. -/
def IndexedSingleton.index {τ : Type} (E : Env τ) (T : τ) (index : Option Int) (w : World E) :
    Int × World E :=
  Singleton.index E T (tagOrDefault index) w

/-- What a program can do that touches the state of the model: call `get`
(dropping the reference, and catching what the constructor throws), call
`index`, call `get` and mutate the object through the returned reference, or
run other code acting on the program globals. -/
inductive Call {τ : Type} (E : Env τ) where
  | get (T : τ) (i : Int)
  | index (T : τ) (i : Int)
  | mutate (T : τ) (i : Int) (f : E.Obj T → E.Obj T)
  | client (f : E.G → E.G)

/-- One call of a program. -/
def step {τ : Type} [DecidableEq τ] (E : Env τ) (w : World E) : Call E → World E
  | .get T i => (Singleton.get E T i w).2
  | .index T i => (Singleton.index E T i w).2
  | .mutate T i f =>
    match (Singleton.get E T i w).1 with
    | .ok r => r.modify f (Singleton.get E T i w).2
    | .error _ => (Singleton.get E T i w).2
  | .client f => { w with globals := f w.globals }

/-- A finite sequence of calls, executed in order. -/
def run {τ : Type} [DecidableEq τ] (E : Env τ) (calls : List (Call E)) (w : World E) : World E :=
  calls.foldl (step E) w

/-- Whether a call goes through `Singleton<k.T, k.i>::get()`. -/
def Call.accesses {τ : Type} [DecidableEq τ] {E : Env τ} (k : Key τ) : Call E → Bool
  | .get T i => decide ((⟨T, i⟩ : Key τ) = k)
  | .index _ _ => false
  | .mutate T i _ => decide ((⟨T, i⟩ : Key τ) = k)
  | .client _ => false

/-- Whether the program itself calls `get` for the pair `k` somewhere in the
sequence. -/
def accessed {τ : Type} [DecidableEq τ] {E : Env τ} (k : Key τ) (calls : List (Call E)) : Bool :=
  calls.any (Call.accesses k)

/-- Every run of the default constructor of `T` completes and builds an object:
none leaves by an exception. -/
def NoThrow {τ : Type} [DecidableEq τ] (E : Env τ) (T : τ) : Prop :=
  ∀ w : World E, ∃ obj, (ctorRun E T w).1 = .ok obj

/-- Whether a call is a call of `index`. -/
def Call.isIndex {τ : Type} {E : Env τ} : Call E → Bool
  | .index _ _ => true
  | _ => false

/-- The bookkeeping invariant behind the construction count of the pair `k`:
the constructor has run once if `get` has been called for `k` and not at all
otherwise, and the static is initialised exactly when `get` has been called. -/
def CountInv {τ : Type} [DecidableEq τ] {E : Env τ} (w : World E) (k : Key τ) : Prop :=
  w.ctorCount k = (if k ∈ w.getCalls then 1 else 0) ∧
  ((w.statics k).isSome = true ↔ k ∈ w.getCalls)

/-! ## A concrete program: the test types -/

/-- Value types of the test program. -/
inductive TestType where
  | Counter
  | Thrower
  | Nested
  deriving DecidableEq

/-- Objects of the test type `Counter`: one integer field. -/
structure CounterObj where
  field : Int
  deriving DecidableEq

/-- Objects of the test type `Nested`: the field of the `Counter` it saw. -/
structure NestedObj where
  seen : Int
  deriving DecidableEq

/-- Objects of the test types. -/
@[reducible] def testObj : TestType → Type
  | .Counter => CounterObj
  | .Thrower => Unit
  | .Nested => NestedObj

/-- Ranks of the test types: `Nested` uses a singleton of `Counter`. -/
@[reducible] def testRank : TestType → Nat
  | .Counter => 0
  | .Thrower => 0
  | .Nested => 1

/-- The test program.  Its only global is the constructor-call counter.
`Counter::Counter()` increments the counter and sets `field` to `0`;
`Thrower::Thrower()` increments the counter and throws;
`Nested::Nested()` increments the counter and copies the field of
`Singleton<Counter, 9>::get()`. -/
@[reducible] def testEnv : Env TestType where
  G := Nat
  ε := Unit
  Obj := testObj
  rank := testRank
  ctor := fun T => match T with
    | .Counter => .withGlobals fun g => .setGlobals (g + 1) (.done ⟨0⟩)
    | .Thrower => .withGlobals fun g => .setGlobals (g + 1) (.raise ())
    | .Nested => .withGlobals fun g => .setGlobals (g + 1)
        (.get .Counter (by decide) 9 fun res =>
          match res with
          | .ok r => .read .Counter r fun o => .done ⟨(o.map fun c => c.field).getD 0⟩
          | .error e => .raise e)

/-! ## Lemmas on `exec`, `get`, `step` and `run` -/

section Lemmas

variable {τ : Type} [DecidableEq τ] {E : Env τ}

/-- A call of `get` made from inside a constructor is `Singleton.get`. -/
theorem getBelow_eq_get (n : Nat) :
    ∀ (T : τ) (h : E.rank T < n) (i : Int) (w : World E),
      getBelow E n T h i w = Singleton.get E T i w := by
  induction n using Nat.strong_induction_on with
  | _ n ih =>
    intro T h i w
    cases n with
    | zero => exact absurd h (Nat.not_lt_zero _)
    | succ n =>
      have h1 : (fun U (hU : E.rank U < E.rank T) j =>
            getBelow E n U (Nat.lt_of_lt_of_le hU (Nat.le_of_lt_succ h)) j)
          = fun U (hU : E.rank U < E.rank T) j => getBelow E (E.rank T) U hU j := by
        funext U hU j w'
        rw [ih n (Nat.lt_succ_self n) U _ j w', ih (E.rank T) h U hU j w']
      simp only [getBelow, Singleton.get, ctorRun, h1]

/-- A run of a constructor, with the calls of `get` it makes read as
`Singleton.get`. -/
theorem ctorRun_eq (T : τ) (w : World E) :
    ctorRun E T w = exec E (fun U _ j => Singleton.get E U j) (E.ctor T) w := by
  have h1 : (fun U (hU : E.rank U < E.rank T) j => getBelow E (E.rank T) U hU j)
      = fun U (_ : E.rank U < E.rank T) j => Singleton.get E U j := by
    funext U hU j w'
    exact getBelow_eq_get _ U hU j w'
  simp only [ctorRun, h1]

/-- The three ways a call of `get` can go: static already initialised;
constructor runs and completes; constructor runs and throws. -/
theorem get_cases (T : τ) (i : Int) (w : World E) :
    (∃ p, w.statics ⟨T, i⟩ = some p ∧
      Singleton.get E T i w = (.ok ⟨i⟩, w.logCall ⟨T, i⟩)) ∨
    (∃ obj w₂, w.statics ⟨T, i⟩ = none ∧
      ctorRun E T ((w.logCall ⟨T, i⟩).logCtor ⟨T, i⟩) = (.ok obj, w₂) ∧
      Singleton.get E T i w = (.ok ⟨i⟩, w₂.store ⟨T, i⟩ ⟨obj⟩)) ∨
    (∃ e w₂, w.statics ⟨T, i⟩ = none ∧
      ctorRun E T ((w.logCall ⟨T, i⟩).logCtor ⟨T, i⟩) = (.error e, w₂) ∧
      Singleton.get E T i w = (.error e, w₂)) := by
  cases hs : w.statics ⟨T, i⟩ with
  | some p => exact Or.inl ⟨p, rfl, by simp only [Singleton.get, hs]⟩
  | none =>
    rcases hc : ctorRun E T ((w.logCall ⟨T, i⟩).logCtor ⟨T, i⟩) with ⟨res, w₂⟩
    cases res with
    | ok obj => exact Or.inr (Or.inl ⟨obj, w₂, rfl, rfl, by simp only [Singleton.get, hs, hc]⟩)
    | error e => exact Or.inr (Or.inr ⟨e, w₂, rfl, rfl, by simp only [Singleton.get, hs, hc]⟩)

theorem get_of_some {T : τ} {i : Int} {w : World E} {p : ProxyStorage (E.Obj T) i}
    (h : w.statics ⟨T, i⟩ = some p) :
    Singleton.get E T i w = (.ok ⟨i⟩, w.logCall ⟨T, i⟩) := by
  simp only [Singleton.get, h]

theorem get_ref_eq {T : τ} {i : Int} {w : World E} {r : Ref T}
    (h : (Singleton.get E T i w).1 = .ok r) : r = ⟨i⟩ := by
  rcases get_cases T i w with ⟨p, _, hg⟩ | ⟨obj, g, _, _, hg⟩ | ⟨e, g, _, _, hg⟩ <;>
    rw [hg] at h <;> simp at h <;> exact h.symm

theorem get_ok_initialised {T : τ} {i : Int} {w : World E} {r : Ref T}
    (h : (Singleton.get E T i w).1 = .ok r) :
    ∃ p, (Singleton.get E T i w).2.statics ⟨T, i⟩ = some p := by
  rcases get_cases T i w with ⟨p, hp, hg⟩ | ⟨obj, g, _, _, hg⟩ | ⟨e, g, _, _, hg⟩
  · exact ⟨p, by rw [hg]; exact hp⟩
  · exact ⟨⟨obj⟩, by rw [hg]; exact Function.update_same _ _ _⟩
  · rw [hg] at h; simp at h

/-- A property of the state kept by every elementary effect of a constructor
body is kept by the run of the body, if the calls of `get` it makes keep it. -/
theorem exec_preserves {allowed : τ → Prop} {α : Type} (P : World E → Prop)
    (getU : (U : τ) → allowed U → Int → World E → Except E.ε (Ref U) × World E)
    (hget : ∀ U (h : allowed U) j w, P w → P (getU U h j w).2)
    (hglob : ∀ (w : World E) g, P w → P { w with globals := g })
    (hmod : ∀ U (r : Ref U) (f : E.Obj U → E.Obj U) w, P w → P (r.modify f w))
    (body : Body τ E.G E.ε E.Obj allowed α) :
    ∀ w, P w → P (exec E getU body w).2 := by
  induction body with
  | done a => intro w hw; exact hw
  | raise e => intro w hw; exact hw
  | withGlobals k ih => intro w hw; exact ih _ w hw
  | setGlobals g k ih => intro w hw; exact ih _ (hglob w g hw)
  | get U h j k ih => intro w hw; exact ih _ _ (hget U h j w hw)
  | read U r k ih => intro w hw; exact ih _ w hw
  | modify U r f k ih => intro w hw; exact ih _ (hmod U r f w hw)

/-- A property of the state kept by the elementary effects of `get` on pairs
whose value type has rank below `n` is kept by every call of `get` for such a
pair, nested constructions included. -/
theorem get_preserves (P : World E → Prop) (n : Nat)
    (hglob : ∀ (w : World E) g, P w → P { w with globals := g })
    (hmod : ∀ U (r : Ref U) (f : E.Obj U → E.Obj U) w, P w → P (r.modify f w))
    (hcall : ∀ (w : World E) k, E.rank k.T < n → P w → P (w.logCall k))
    (hctor : ∀ (w : World E) k, E.rank k.T < n → P w → P (w.logCtor k))
    (hstore : ∀ (w : World E) k p, E.rank k.T < n → P w → P (w.store k p)) :
    ∀ (T : τ), E.rank T < n → ∀ (i : Int) (w : World E), P w → P (Singleton.get E T i w).2 := by
  suffices h : ∀ m (T : τ), E.rank T = m → E.rank T < n →
      ∀ (i : Int) (w : World E), P w → P (Singleton.get E T i w).2 from
    fun T => h _ T rfl
  intro m
  induction m using Nat.strong_induction_on with
  | _ m ih =>
    intro T hr hT i w hw
    subst hr
    have hbody : ∀ w', P w' → P (ctorRun E T w').2 := by
      intro w' hw'
      rw [ctorRun_eq]
      exact exec_preserves P _
        (fun U hU j w'' hw'' => ih (E.rank U) hU U rfl (Nat.lt_trans hU hT) j w'' hw'')
        hglob hmod (E.ctor T) w' hw'
    rcases get_cases T i w with ⟨p, _, hg⟩ | ⟨obj, w₂, _, hc, hg⟩ | ⟨e, w₂, _, hc, hg⟩
    · rw [hg]; exact hcall w ⟨T, i⟩ hT hw
    · rw [hg]
      have h2 := hbody _ (hctor _ ⟨T, i⟩ hT (hcall w ⟨T, i⟩ hT hw))
      rw [hc] at h2
      exact hstore w₂ ⟨T, i⟩ ⟨obj⟩ hT h2
    · rw [hg]
      have h2 := hbody _ (hctor _ ⟨T, i⟩ hT (hcall w ⟨T, i⟩ hT hw))
      rw [hc] at h2
      exact h2

/-- The same for one run of a constructor whose value type has rank at most
`n`. -/
theorem ctorRun_preserves (P : World E → Prop) (n : Nat)
    (hglob : ∀ (w : World E) g, P w → P { w with globals := g })
    (hmod : ∀ U (r : Ref U) (f : E.Obj U → E.Obj U) w, P w → P (r.modify f w))
    (hcall : ∀ (w : World E) k, E.rank k.T < n → P w → P (w.logCall k))
    (hctor : ∀ (w : World E) k, E.rank k.T < n → P w → P (w.logCtor k))
    (hstore : ∀ (w : World E) k p, E.rank k.T < n → P w → P (w.store k p))
    (T : τ) (hT : E.rank T ≤ n) (w : World E) (hw : P w) : P (ctorRun E T w).2 := by
  rw [ctorRun_eq]
  exact exec_preserves P _
    (fun U hU j w' hw' =>
      get_preserves P n hglob hmod hcall hctor hstore U (Nat.lt_of_lt_of_le hU hT) j w' hw')
    hglob hmod (E.ctor T) w hw

theorem modify_isSome {T : τ} (r : Ref T) (f : E.Obj T → E.Obj T) (w : World E) (k : Key τ) :
    ((r.modify f w).statics k).isSome = (w.statics k).isSome := by
  by_cases hk : k = ⟨T, r.tag⟩
  · subst hk
    simp [Ref.modify]
  · simp [Ref.modify, Function.update_noteq hk]

theorem store_isSome_mono {w : World E} {k k' : Key τ} (p : ProxyStorage (E.Obj k'.T) k'.i)
    (h : (w.statics k).isSome = true) : ((w.store k' p).statics k).isSome = true := by
  by_cases hk : k = k'
  · subst hk
    simp [World.store]
  · simpa [World.store, Function.update_noteq hk] using h

theorem get_isSome_mono (T : τ) (i : Int) {w : World E} {k : Key τ}
    (h : (w.statics k).isSome = true) :
    ((Singleton.get E T i w).2.statics k).isSome = true :=
  get_preserves (fun w => (w.statics k).isSome = true) (E.rank T + 1)
    (fun _ _ hw => hw) (fun _ r f w hw => (modify_isSome r f w k).trans hw)
    (fun _ _ _ hw => hw) (fun _ _ _ hw => hw) (fun _ _ p _ hw => store_isSome_mono p hw)
    T (Nat.lt_succ_self _) i w h

theorem get_calls_mono (T : τ) (i : Int) {w : World E} {k : Key τ}
    (h : k ∈ w.getCalls) : k ∈ (Singleton.get E T i w).2.getCalls :=
  get_preserves (fun w => k ∈ w.getCalls) (E.rank T + 1)
    (fun _ _ hw => hw) (fun _ _ _ _ hw => hw)
    (fun _ _ _ hw => by simp [World.logCall, hw]) (fun _ _ _ hw => hw) (fun _ _ _ _ hw => hw)
    T (Nat.lt_succ_self _) i w h

theorem ctorRun_calls_mono (T : τ) {w : World E} {k : Key τ}
    (h : k ∈ w.getCalls) : k ∈ (ctorRun E T w).2.getCalls :=
  ctorRun_preserves (fun w => k ∈ w.getCalls) (E.rank T)
    (fun _ _ hw => hw) (fun _ _ _ _ hw => hw)
    (fun _ _ _ hw => by simp [World.logCall, hw]) (fun _ _ _ hw => hw) (fun _ _ _ _ hw => hw)
    T (Nat.le_refl _) w h

/-- Every call of `get` is logged. -/
theorem get_logged (T : τ) (i : Int) (w : World E) :
    (⟨T, i⟩ : Key τ) ∈ (Singleton.get E T i w).2.getCalls := by
  have h1 : (⟨T, i⟩ : Key τ) ∈ ((w.logCall ⟨T, i⟩).logCtor ⟨T, i⟩).getCalls := by
    simp [World.logCall, World.logCtor]
  have h2 := ctorRun_calls_mono T h1
  rcases get_cases T i w with ⟨p, _, hg⟩ | ⟨obj, w₂, _, hc, hg⟩ | ⟨e, w₂, _, hc, hg⟩
  · rw [hg]; simp [World.logCall]
  · rw [hg]; rw [hc] at h2; exact h2
  · rw [hg]; rw [hc] at h2; exact h2

theorem step_isSome_mono {w : World E} (c : Call E) {k : Key τ}
    (h : (w.statics k).isSome = true) : ((step E w c).statics k).isSome = true := by
  cases c with
  | get T i => exact get_isSome_mono T i h
  | index T i => exact h
  | mutate T i f =>
    simp only [step]
    split
    · rw [modify_isSome]; exact get_isSome_mono T i h
    · exact get_isSome_mono T i h
  | client f => exact h

theorem run_isSome_mono (calls : List (Call E)) {w : World E} {k : Key τ}
    (h : (w.statics k).isSome = true) : ((run E calls w).statics k).isSome = true := by
  induction calls generalizing w with
  | nil => exact h
  | cons c cs ih => exact ih (step_isSome_mono c h)

theorem step_calls_mono {w : World E} (c : Call E) {k : Key τ}
    (h : k ∈ w.getCalls) : k ∈ (step E w c).getCalls := by
  cases c with
  | get T i => exact get_calls_mono T i h
  | index T i => exact h
  | mutate T i f =>
    simp only [step]
    split
    · exact get_calls_mono T i h
    · exact get_calls_mono T i h
  | client f => exact h

theorem run_calls_mono (calls : List (Call E)) {w : World E} {k : Key τ}
    (h : k ∈ w.getCalls) : k ∈ (run E calls w).getCalls := by
  induction calls generalizing w with
  | nil => exact h
  | cons c cs ih => exact ih (step_calls_mono c h)

/-- A call of `get` made by the program for the pair `k` is in the log. -/
theorem run_accessed_logged (calls : List (Call E)) (w : World E) {k : Key τ}
    (h : accessed k calls = true) : k ∈ (run E calls w).getCalls := by
  induction calls generalizing w with
  | nil => simp [accessed] at h
  | cons c cs ih =>
    by_cases hc : Call.accesses k c = true
    · refine run_calls_mono cs ?_
      cases c with
      | get T i =>
        have hk : (⟨T, i⟩ : Key τ) = k := by simpa [Call.accesses] using hc
        subst hk
        exact get_logged T i w
      | index T i => simp [Call.accesses] at hc
      | mutate T i f =>
        have hk : (⟨T, i⟩ : Key τ) = k := by simpa [Call.accesses] using hc
        subst hk
        simp only [step]
        split
        · exact get_logged T i w
        · exact get_logged T i w
      | client f => simp [Call.accesses] at hc
    · have h2 : accessed k cs = true := by
        simpa [accessed, hc] using h
      exact ih (step E w c) h2

/-- A run of the constructor of `k.T` reaches only pairs of lower rank: it
leaves the construction count of `k`, whether `k` is in the call log, and
whether the static of `k` is initialised as they are. -/
theorem ctorRun_frame (k : Key τ) (c : Nat) (b : Prop) (s : Bool) (w : World E)
    (hw : w.ctorCount k = c ∧ (k ∈ w.getCalls ↔ b) ∧ (w.statics k).isSome = s) :
    (ctorRun E k.T w).2.ctorCount k = c ∧ (k ∈ (ctorRun E k.T w).2.getCalls ↔ b) ∧
      ((ctorRun E k.T w).2.statics k).isSome = s := by
  have hne : ∀ k' : Key τ, E.rank k'.T < E.rank k.T → k ≠ k' := by
    intro k' hlt hk
    subst hk
    exact Nat.lt_irrefl _ hlt
  have hne2 : ∀ k' : Key τ, E.rank k'.T < E.rank k.T → (k' == k) = false := by
    intro k' hlt
    simpa using fun h => hne k' hlt h.symm
  refine ctorRun_preserves
    (fun w => w.ctorCount k = c ∧ (k ∈ w.getCalls ↔ b) ∧ (w.statics k).isSome = s)
    (E.rank k.T) (fun _ _ hw => hw)
    (fun _ r f w hw => ⟨hw.1, hw.2.1, (modify_isSome r f w k).trans hw.2.2⟩)
    ?_ ?_ ?_ k.T (Nat.le_refl _) w hw
  · intro w k' hlt hw
    refine ⟨hw.1, ?_, hw.2.2⟩
    rw [← hw.2.1]
    simp [World.logCall, hne k' hlt]
  · intro w k' hlt hw
    refine ⟨?_, hw.2.1, hw.2.2⟩
    rw [← hw.1]
    simp [World.logCtor, World.ctorCount, List.count_cons, hne2 k' hlt]
  · intro w k' p hlt hw
    refine ⟨hw.1, hw.2.1, ?_⟩
    rw [← hw.2.2]
    simp [World.store, Function.update_noteq (hne k' hlt)]

theorem countInv_init (g : E.G) (k : Key τ) : CountInv (World.init E g) k := by
  simp [CountInv, World.init, World.ctorCount]

/-- The elementary effects of `get` on a pair other than `k` keep the
invariant of `k`. -/
theorem countInv_logCall {w : World E} {k k' : Key τ} (hk : k ≠ k') (h : CountInv w k) :
    CountInv (w.logCall k') k := by
  simpa [CountInv, World.logCall, World.ctorCount, hk] using h

theorem countInv_logCtor {w : World E} {k k' : Key τ} (hk : k ≠ k') (h : CountInv w k) :
    CountInv (w.logCtor k') k := by
  have hk2 : (k' == k) = false := by simpa using fun h => hk h.symm
  simpa [CountInv, World.logCtor, World.ctorCount, List.count_cons, hk2] using h

theorem countInv_store {w : World E} {k k' : Key τ} (p : ProxyStorage (E.Obj k'.T) k'.i)
    (hk : k ≠ k') (h : CountInv w k) : CountInv (w.store k' p) k := by
  simpa [CountInv, World.store, World.ctorCount, Function.update_noteq hk] using h

theorem countInv_modify {w : World E} {k : Key τ} {U : τ} (r : Ref U)
    (f : E.Obj U → E.Obj U) (h : CountInv w k) : CountInv (r.modify f w) k := by
  refine ⟨h.1, ?_⟩
  rw [modify_isSome]
  exact h.2

/-- For a value type whose constructor does not throw, every call of `get`,
for whatever pair, keeps the invariant of the pair `k`. -/
theorem get_countInv {k : Key τ} (hno : NoThrow E k.T) :
    ∀ (T : τ) (i : Int) (w : World E), CountInv w k → CountInv (Singleton.get E T i w).2 k := by
  suffices h : ∀ m (T : τ), E.rank T = m →
      ∀ (i : Int) (w : World E), CountInv w k → CountInv (Singleton.get E T i w).2 k from
    fun T => h _ T rfl
  intro m
  induction m using Nat.strong_induction_on with
  | _ m ih =>
    intro T hr i w hw
    subst hr
    by_cases hk : k = ⟨T, i⟩
    · subst hk
      rcases get_cases T i w with ⟨p, hp, hg⟩ | ⟨obj, w₂, hn, hc, hg⟩ | ⟨e, w₂, _, hc, hg⟩
      · rw [hg]
        have hmem : (⟨T, i⟩ : Key τ) ∈ w.getCalls := hw.2.mp (by rw [hp]; rfl)
        have h1 := hw.1
        rw [if_pos hmem] at h1
        refine ⟨?_, ?_⟩
        · simpa [World.logCall, World.ctorCount] using h1
        · simp [World.logCall, hp]
      · rw [hg]
        have hmem : (⟨T, i⟩ : Key τ) ∉ w.getCalls := by
          intro h
          have := hw.2.mpr h
          rw [hn] at this
          cases this
        have h1 := hw.1
        rw [if_neg hmem] at h1
        have h0 : ((w.logCall ⟨T, i⟩).logCtor ⟨T, i⟩).ctorCount ⟨T, i⟩ = 1 ∧
            ((⟨T, i⟩ : Key τ) ∈ ((w.logCall ⟨T, i⟩).logCtor ⟨T, i⟩).getCalls ↔ True) ∧
            (((w.logCall ⟨T, i⟩).logCtor ⟨T, i⟩).statics ⟨T, i⟩).isSome = false := by
          simp only [World.ctorCount] at h1
          refine ⟨?_, ?_, ?_⟩
          · simp [World.logCall, World.logCtor, World.ctorCount, h1]
          · simp [World.logCall, World.logCtor]
          · simp [World.logCall, World.logCtor, hn]
        have h2 := ctorRun_frame ⟨T, i⟩ 1 True false _ h0
        rw [hc] at h2
        refine ⟨?_, ?_⟩
        · have h3 : (⟨T, i⟩ : Key τ) ∈ w₂.getCalls := h2.2.1.mpr trivial
          simpa [World.store, World.ctorCount, h3] using h2.1
        · have h3 : (⟨T, i⟩ : Key τ) ∈ w₂.getCalls := h2.2.1.mpr trivial
          simp [World.store, h3]
      · obtain ⟨obj, hobj⟩ := hno ((w.logCall ⟨T, i⟩).logCtor ⟨T, i⟩)
        rw [hc] at hobj
        simp at hobj
    · have hbody : ∀ w', CountInv w' k → CountInv (ctorRun E T w').2 k := by
        intro w' hw'
        rw [ctorRun_eq]
        exact exec_preserves (fun w => CountInv w k) _
          (fun U hU j w'' hw'' => ih (E.rank U) hU U rfl j w'' hw'')
          (fun _ _ hw => hw) (fun _ r f _ hw => countInv_modify r f hw) (E.ctor T) w' hw'
      rcases get_cases T i w with ⟨p, _, hg⟩ | ⟨obj, w₂, _, hc, hg⟩ | ⟨e, w₂, _, hc, hg⟩
      · rw [hg]; exact countInv_logCall hk hw
      · rw [hg]
        have h2 := hbody _ (countInv_logCtor hk (countInv_logCall hk hw))
        rw [hc] at h2
        exact countInv_store _ hk h2
      · rw [hg]
        have h2 := hbody _ (countInv_logCtor hk (countInv_logCall hk hw))
        rw [hc] at h2
        exact h2

theorem step_countInv {w : World E} (c : Call E) {k : Key τ}
    (hno : NoThrow E k.T) (h : CountInv w k) : CountInv (step E w c) k := by
  cases c with
  | get T i => exact get_countInv hno T i w h
  | index T i => exact h
  | mutate T i f =>
    simp only [step]
    split
    · exact countInv_modify _ f (get_countInv hno T i w h)
    · exact get_countInv hno T i w h
  | client f => exact h

theorem run_countInv (calls : List (Call E)) {w : World E} {k : Key τ}
    (hno : NoThrow E k.T) (h : CountInv w k) : CountInv (run E calls w) k := by
  induction calls generalizing w with
  | nil => exact h
  | cons c cs ih => exact ih (step_countInv c hno h)

theorem run_erase_index (calls : List (Call E)) (w : World E) :
    run E (calls.filter fun c => !c.isIndex) w = run E calls w := by
  induction calls generalizing w with
  | nil => rfl
  | cons c cs ih =>
    cases c with
    | get T i => simpa [run, List.filter, Call.isIndex] using ih _
    | index T i => simpa [run, List.filter, Call.isIndex, step, Singleton.index] using ih w
    | mutate T i f => simpa [run, List.filter, Call.isIndex] using ih _
    | client f => simpa [run, List.filter, Call.isIndex] using ih _

/-- A call of `get` that finds the static uninitialised, for a value type whose
constructor does not throw, runs the constructor and stores what it built. -/
theorem get_constructs {T : τ} {i : Int} {w : World E} (hno : NoThrow E T)
    (hn : w.statics ⟨T, i⟩ = none) :
    ∃ obj, (ctorRun E T ((w.logCall ⟨T, i⟩).logCtor ⟨T, i⟩)).1 = .ok obj ∧
      (Singleton.get E T i w).2.statics ⟨T, i⟩ = some ⟨obj⟩ := by
  rcases get_cases T i w with ⟨p, hp, _⟩ | ⟨obj, w₂, _, hc, hg⟩ | ⟨e, w₂, _, hc, _⟩
  · rw [hn] at hp; cases hp
  · refine ⟨obj, by rw [hc], ?_⟩
    rw [hg]; exact Function.update_same _ _ _
  · obtain ⟨obj, hobj⟩ := hno ((w.logCall ⟨T, i⟩).logCtor ⟨T, i⟩)
    rw [hc] at hobj
    simp at hobj

/-- A constructor body that uses the globals only leaves the statics and both
logs as they are. -/
theorem exec_globalsOnly {allowed : τ → Prop} {α : Type}
    (getU : (U : τ) → allowed U → Int → World E → Except E.ε (Ref U) × World E)
    {body : Body τ E.G E.ε E.Obj allowed α} (hb : body.GlobalsOnly) :
    ∀ w : World E, (exec E getU body w).2.statics = w.statics ∧
      (exec E getU body w).2.ctorRuns = w.ctorRuns ∧
      (exec E getU body w).2.getCalls = w.getCalls := by
  induction hb with
  | done a => intro w; exact ⟨rfl, rfl, rfl⟩
  | raise e => intro w; exact ⟨rfl, rfl, rfl⟩
  | withGlobals k _ ih => intro w; exact ih w.globals w
  | setGlobals g k _ ih => intro w; exact ih { w with globals := g }

/-- When the constructor of `T` uses the globals only, a call of
`Singleton<T, i>::get()` changes no other cell and no other construction
count. -/
theorem get_frame_globalsOnly {T : τ} (hb : (E.ctor T).GlobalsOnly) (i : Int) (w : World E)
    {k : Key τ} (hk : k ≠ ⟨T, i⟩) :
    (Singleton.get E T i w).2.statics k = w.statics k ∧
      (Singleton.get E T i w).2.ctorCount k = w.ctorCount k := by
  have hk2 : ((⟨T, i⟩ : Key τ) == k) = false := by simpa using fun h => hk h.symm
  have hx := exec_globalsOnly (fun U hU j => getBelow E (E.rank T) U hU j) hb
    ((w.logCall ⟨T, i⟩).logCtor ⟨T, i⟩)
  rcases get_cases T i w with ⟨p, _, hg⟩ | ⟨obj, w₂, _, hc, hg⟩ | ⟨e, w₂, _, hc, hg⟩
  · rw [hg]; exact ⟨rfl, rfl⟩
  · rw [hg]
    have hc2 : (exec E (fun U hU j => getBelow E (E.rank T) U hU j) (E.ctor T)
        ((w.logCall ⟨T, i⟩).logCtor ⟨T, i⟩)) = (.ok obj, w₂) := hc
    rw [hc2] at hx
    refine ⟨?_, ?_⟩
    · simp only [World.store]
      rw [Function.update_noteq hk, hx.1]
      rfl
    · simp only [World.store, World.ctorCount]
      rw [hx.2.1]
      simp [World.logCall, World.logCtor, List.count_cons, hk2]
  · rw [hg]
    have hc2 : (exec E (fun U hU j => getBelow E (E.rank T) U hU j) (E.ctor T)
        ((w.logCall ⟨T, i⟩).logCtor ⟨T, i⟩)) = (.error e, w₂) := hc
    rw [hc2] at hx
    refine ⟨?_, ?_⟩
    · rw [hx.1]; rfl
    · simp only [World.ctorCount]
      rw [hx.2.1]
      simp [World.logCall, World.logCtor, List.count_cons, hk2]

end Lemmas

/-! ## The properties of the specification -/

section Claims

open TestType

variable {τ : Type} [DecidableEq τ]

/-- C1: once a call of `Singleton<T,i>::get()` has returned a reference `r₁`,
that reference names the cell of the pair `(T, i)`; every later call of
`Singleton<T,i>::get()`, after any sequence of other calls and mutations,
returns, and returns the same reference `r₁`; and a call of
`Singleton<T,i>::get()` in any state whatever, when it returns, returns `r₁`. -/
theorem get_returns_same_cell (E : Env τ) (T : τ) (i : Int) (w : World E) (r₁ : Ref T)
    (h : (Singleton.get E T i w).1 = .ok r₁) :
    r₁.cell = ⟨T, i⟩ ∧
    (∀ calls : List (Call E),
      (Singleton.get E T i (run E calls (Singleton.get E T i w).2)).1 = .ok r₁) ∧
    ∀ (u : World E) (r : Ref T), (Singleton.get E T i u).1 = .ok r → r = r₁ := by
  have hr := get_ref_eq h
  subst hr
  refine ⟨rfl, fun calls => ?_, fun u r hu => get_ref_eq hu⟩
  obtain ⟨p, hp⟩ := get_ok_initialised h
  have hsome : ((run E calls (Singleton.get E T i w).2).statics ⟨T, i⟩).isSome = true :=
    run_isSome_mono calls (by rw [hp]; rfl)
  obtain ⟨q, hq⟩ := Option.isSome_iff_exists.mp hsome
  rw [get_of_some hq]

/-- Witness for C1: the test type `Counter`, tag `-3`, with calls on other
pairs and a mutation in between. -/
theorem get_returns_same_cell_witness :
    (Singleton.get testEnv Counter (-3) (World.init testEnv 0)).1 = .ok ⟨-3⟩ ∧
    ((⟨-3⟩ : Ref Counter).cell = ⟨Counter, -3⟩ ∧
      (∀ calls : List (Call testEnv),
        (Singleton.get testEnv Counter (-3)
          (run testEnv calls (Singleton.get testEnv Counter (-3) (World.init testEnv 0)).2)).1
          = .ok ⟨-3⟩) ∧
      ∀ (u : World testEnv) (r : Ref Counter),
        (Singleton.get testEnv Counter (-3) u).1 = .ok r → r = ⟨-3⟩) :=
  ⟨rfl, get_returns_same_cell testEnv Counter (-3) (World.init testEnv 0) ⟨-3⟩ rfl⟩

/-- C2: for distinct pairs `(V, i) ≠ (W, j)` the references returned by
`Singleton<V,i>::get()` and `Singleton<W,j>::get()` name distinct cells, and a
mutation made through the first leaves what is read through the second
unchanged. -/
theorem distinct_pairs_distinct_cells (E : Env τ) (V W : τ) (i j : Int)
    (hne : (⟨V, i⟩ : Key τ) ≠ ⟨W, j⟩) (w w' : World E) (r : Ref V) (r' : Ref W)
    (hr : (Singleton.get E V i w).1 = .ok r) (hr' : (Singleton.get E W j w').1 = .ok r') :
    r.cell ≠ r'.cell ∧
    ∀ (f : E.Obj V → E.Obj V) (u : World E), r'.read (r.modify f u) = r'.read u := by
  have h1 := get_ref_eq hr
  have h2 := get_ref_eq hr'
  subst h1 h2
  refine ⟨hne, fun f u => ?_⟩
  have hk : (⟨W, j⟩ : Key τ) ≠ ⟨V, i⟩ := fun h => hne h.symm
  simp only [Ref.read, Ref.modify]
  rw [Function.update_noteq hk]

/-- Witness for C2: the same value type `Counter` with the tags `0` and `1`. -/
theorem distinct_pairs_distinct_cells_witness :
    (⟨Counter, 0⟩ : Key TestType) ≠ ⟨Counter, 1⟩ ∧
    ((⟨0⟩ : Ref Counter).cell ≠ (⟨1⟩ : Ref Counter).cell ∧
      ∀ (f : CounterObj → CounterObj) (u : World testEnv),
        (⟨1⟩ : Ref Counter).read ((⟨0⟩ : Ref Counter).modify f u)
          = (⟨1⟩ : Ref Counter).read u) :=
  ⟨by decide,
    distinct_pairs_distinct_cells testEnv Counter Counter 0 1 (by decide)
      (World.init testEnv 0) (World.init testEnv 0) ⟨0⟩ ⟨1⟩ rfl rfl⟩

/-- C3: `Singleton<T,i>::index()` returns exactly `i`, in every state, and so in
particular after any sequence of calls executed from the start of the
program. -/
theorem index_returns_tag (E : Env τ) (T : τ) (i : Int) :
    (∀ w : World E, (Singleton.index E T i w).1 = i) ∧
    ∀ (g : E.G) (calls : List (Call E)),
      (Singleton.index E T i (run E calls (World.init E g))).1 = i :=
  ⟨fun _ => rfl, fun _ _ => rfl⟩

/-- C4 as stated fails: the default constructor of `Thrower` throws, so after
two calls of `Singleton<Thrower,0>::get()` from the start of the program it has
run twice for the pair `(Thrower, 0)`, not once. -/
theorem construction_count_counterexample :
    (run testEnv [.get Thrower 0, .get Thrower 0] (World.init testEnv 0)).ctorCount
        ⟨Thrower, 0⟩
      ≠ (if accessed (⟨Thrower, 0⟩ : Key TestType)
            ([.get Thrower 0, .get Thrower 0] : List (Call testEnv)) = true
          then 1 else 0) := by
  decide

/-- C4, amended: for a value type `V` whose default constructor does not throw,
after any finite sequence of calls from the start of the program the default
constructor has run for the pair `(V, i)` zero times if `Singleton<V,i>::get()`
has not been called, by the program or from inside a constructor, and exactly
once otherwise; the static of the pair is initialised exactly when `get` has
been called for it; a call made by the program itself counts as a call; and a
call of `get` that finds the static uninitialised fills it with the object the
default constructor produces. -/
theorem construction_count_invariant (E : Env τ) (V : τ) (i : Int) (hno : NoThrow E V)
    (g : E.G) (calls : List (Call E)) :
    (run E calls (World.init E g)).ctorCount ⟨V, i⟩
        = (if (⟨V, i⟩ : Key τ) ∈ (run E calls (World.init E g)).getCalls then 1 else 0) ∧
    (((run E calls (World.init E g)).statics ⟨V, i⟩).isSome = true
        ↔ (⟨V, i⟩ : Key τ) ∈ (run E calls (World.init E g)).getCalls) ∧
    (accessed (⟨V, i⟩ : Key τ) calls = true
        → (⟨V, i⟩ : Key τ) ∈ (run E calls (World.init E g)).getCalls) ∧
    ∀ w : World E, w.statics ⟨V, i⟩ = none →
      ∃ obj, (ctorRun E V ((w.logCall ⟨V, i⟩).logCtor ⟨V, i⟩)).1 = .ok obj ∧
        (Singleton.get E V i w).2.statics ⟨V, i⟩ = some ⟨obj⟩ := by
  have h := run_countInv calls (k := ⟨V, i⟩) hno (countInv_init g ⟨V, i⟩)
  exact ⟨h.1, h.2, fun ha => run_accessed_logged calls _ ha, fun w hn => get_constructs hno hn⟩

/-- The default constructor of the test type `Counter` does not throw. -/
theorem counter_noThrow : NoThrow testEnv Counter :=
  fun _ => ⟨⟨0⟩, rfl⟩

/-- Witness for C4: the pair `(Counter, 9)`, which the program reaches only
through the constructor of `Nested`, and then once more itself. -/
theorem construction_count_invariant_witness :
    NoThrow testEnv Counter ∧
    (run testEnv [.get Nested 0] (World.init testEnv 0)).ctorCount ⟨Counter, 9⟩ = 1 ∧
    (run testEnv [.get Nested 0, .index Counter 9, .get Thrower 7, .get Counter 9]
      (World.init testEnv 0)).ctorCount ⟨Counter, 9⟩ = 1 ∧
    ((run testEnv [.get Nested 0, .index Counter 9, .get Thrower 7, .get Counter 9]
        (World.init testEnv 0)).ctorCount ⟨Counter, 9⟩
      = (if (⟨Counter, 9⟩ : Key TestType) ∈
            (run testEnv [.get Nested 0, .index Counter 9, .get Thrower 7, .get Counter 9]
              (World.init testEnv 0)).getCalls
          then 1 else 0) ∧
     (((run testEnv [.get Nested 0, .index Counter 9, .get Thrower 7, .get Counter 9]
        (World.init testEnv 0)).statics ⟨Counter, 9⟩).isSome = true
      ↔ (⟨Counter, 9⟩ : Key TestType) ∈
          (run testEnv [.get Nested 0, .index Counter 9, .get Thrower 7, .get Counter 9]
            (World.init testEnv 0)).getCalls) ∧
     (accessed (⟨Counter, 9⟩ : Key TestType)
          ([.get Nested 0, .index Counter 9, .get Thrower 7, .get Counter 9] :
            List (Call testEnv)) = true
      → (⟨Counter, 9⟩ : Key TestType) ∈
          (run testEnv [.get Nested 0, .index Counter 9, .get Thrower 7, .get Counter 9]
            (World.init testEnv 0)).getCalls) ∧
     ∀ w : World testEnv, w.statics ⟨Counter, 9⟩ = none →
      ∃ obj, (ctorRun testEnv Counter
            ((w.logCall ⟨Counter, 9⟩).logCtor ⟨Counter, 9⟩)).1 = .ok obj ∧
        (Singleton.get testEnv Counter 9 w).2.statics ⟨Counter, 9⟩ = some ⟨obj⟩) :=
  ⟨counter_noThrow, by decide, by decide,
    construction_count_invariant testEnv Counter 9 counter_noThrow 0 _⟩

/-- C5: the Counter scenario.  From the start of the program with the global
counter at `0`: `get<Counter,0>()` returns a reference, the field behind it is
set to `5`; a second `get<Counter,0>()` returns a reference behind which the
field is `5`; `get<Counter,1>()` returns a reference behind which the field is
`0`; and the global constructor-call counter is then exactly `2`. -/
theorem counter_scenario :
    ∃ (r₁ r₂ r₃ : Ref Counter) (w₁ w₃ w₄ : World testEnv),
      Singleton.get testEnv Counter 0 (World.init testEnv 0) = (.ok r₁, w₁) ∧
      Singleton.get testEnv Counter 0 (r₁.modify (fun c => { c with field := 5 }) w₁)
        = (.ok r₂, w₃) ∧
      r₂.read w₃ = some ⟨5⟩ ∧
      Singleton.get testEnv Counter 1 w₃ = (.ok r₃, w₄) ∧
      r₃.read w₄ = some ⟨0⟩ ∧
      r₂.read w₄ = some ⟨5⟩ ∧
      r₁ = r₂ ∧ r₂.cell ≠ r₃.cell ∧
      w₄.globals = 2 :=
  ⟨⟨0⟩, ⟨0⟩, ⟨1⟩, _, _, _, rfl, rfl, by decide, rfl, by decide, by decide, rfl, by decide, rfl⟩

/-- C6 as stated fails, in both halves.  `Singleton<Thrower,0>::get()` has been
called once from the start of the program (and threw), yet the next call is
not a pure read: it runs the constructor again, so the construction count of
`(Thrower, 0)` goes from `1` to `2`.  And the first `Singleton<Nested,0>::get()`
of the program does more than add the cell of `(Nested, 0)`: the constructor of
`Nested` calls `Singleton<Counter,9>::get()`, which constructs the cell of
`(Counter, 9)` as well. -/
theorem later_get_pure_read_counterexample :
    ((Singleton.get testEnv Thrower 0 (World.init testEnv 0)).2.ctorCount ⟨Thrower, 0⟩ = 1 ∧
      (Singleton.get testEnv Thrower 0
        (Singleton.get testEnv Thrower 0 (World.init testEnv 0)).2).2.ctorCount ⟨Thrower, 0⟩
        = 2) ∧
    (((World.init testEnv 0).statics ⟨Counter, 9⟩).isSome = false ∧
      ((Singleton.get testEnv Nested 0 (World.init testEnv 0)).2.statics
        ⟨Counter, 9⟩).isSome = true ∧
      (World.init testEnv 0).ctorCount ⟨Counter, 9⟩ = 0 ∧
      (Singleton.get testEnv Nested 0 (World.init testEnv 0)).2.ctorCount ⟨Counter, 9⟩ = 1) := by
  decide

/-- C6, amended: once a call of `Singleton<V,i>::get()` has returned, every later
call of it, after any sequence of other calls and mutations, is a pure read:
it returns the same reference and leaves all statics (with the mutations made
to them), the globals and the constructor log unchanged, the only trace being
its entry in the ghost log of calls.  If that returning call found the static
uninitialised, the state it left is the state the run of the constructor of
`V` left, with the built object stored in the cell of `(V, i)`.  And when the
constructor of `V` uses the program globals only, that call changed no other
cell and no other pair's construction count. -/
theorem later_get_pure_read (E : Env τ) (V : τ) (i : Int) (w : World E) (r : Ref V)
    (h : (Singleton.get E V i w).1 = .ok r) :
    (∀ calls : List (Call E),
      (Singleton.get E V i (run E calls (Singleton.get E V i w).2)).1 = .ok r ∧
      (Singleton.get E V i (run E calls (Singleton.get E V i w).2)).2.statics
        = (run E calls (Singleton.get E V i w).2).statics ∧
      (Singleton.get E V i (run E calls (Singleton.get E V i w).2)).2.globals
        = (run E calls (Singleton.get E V i w).2).globals ∧
      (Singleton.get E V i (run E calls (Singleton.get E V i w).2)).2.ctorRuns
        = (run E calls (Singleton.get E V i w).2).ctorRuns ∧
      (Singleton.get E V i (run E calls (Singleton.get E V i w).2)).2.getCalls
        = (run E calls (Singleton.get E V i w).2).getCalls ++ [⟨V, i⟩]) ∧
    (w.statics ⟨V, i⟩ = none →
      ∃ obj w₂, ctorRun E V ((w.logCall ⟨V, i⟩).logCtor ⟨V, i⟩) = (.ok obj, w₂) ∧
        (Singleton.get E V i w).2 = w₂.store ⟨V, i⟩ ⟨obj⟩) ∧
    ((E.ctor V).GlobalsOnly → ∀ k : Key τ, k ≠ ⟨V, i⟩ →
      (Singleton.get E V i w).2.statics k = w.statics k ∧
      (Singleton.get E V i w).2.ctorCount k = w.ctorCount k) := by
  have hr := get_ref_eq h
  subst hr
  refine ⟨fun calls => ?_, fun hn => ?_, fun hb k hk => get_frame_globalsOnly hb i w hk⟩
  · obtain ⟨p, hp⟩ := get_ok_initialised h
    have hsome : ((run E calls (Singleton.get E V i w).2).statics ⟨V, i⟩).isSome = true :=
      run_isSome_mono calls (by rw [hp]; rfl)
    obtain ⟨q, hq⟩ := Option.isSome_iff_exists.mp hsome
    rw [get_of_some hq]
    exact ⟨rfl, rfl, rfl, rfl, rfl⟩
  · rcases get_cases V i w with ⟨p, hp, _⟩ | ⟨obj, w₂, _, hc, hg⟩ | ⟨e, w₂, _, _, hg⟩
    · rw [hn] at hp; cases hp
    · exact ⟨obj, w₂, hc, by rw [hg]⟩
    · rw [hg] at h; simp at h

/-- The constructor of the test type `Counter` uses the globals only. -/
theorem counter_globalsOnly : (testEnv.ctor Counter).GlobalsOnly :=
  .withGlobals _ fun _ => .setGlobals _ _ (.done _)

/-- Witness for C6: the first `get<Counter,0>()` of the program returns. -/
theorem later_get_pure_read_witness :
    (Singleton.get testEnv Counter 0 (World.init testEnv 0)).1 = .ok ⟨0⟩ ∧
    (World.init testEnv 0).statics ⟨Counter, 0⟩ = none ∧
    (testEnv.ctor Counter).GlobalsOnly ∧
    (∀ calls : List (Call testEnv),
      (Singleton.get testEnv Counter 0
        (run testEnv calls (Singleton.get testEnv Counter 0 (World.init testEnv 0)).2)).2.statics
        = (run testEnv calls
            (Singleton.get testEnv Counter 0 (World.init testEnv 0)).2).statics) ∧
    (∃ obj w₂,
      ctorRun testEnv Counter
          (((World.init testEnv 0).logCall ⟨Counter, 0⟩).logCtor ⟨Counter, 0⟩) = (.ok obj, w₂) ∧
        (Singleton.get testEnv Counter 0 (World.init testEnv 0)).2
          = w₂.store ⟨Counter, 0⟩ ⟨obj⟩) ∧
    (∀ k : Key TestType, k ≠ ⟨Counter, 0⟩ →
      (Singleton.get testEnv Counter 0 (World.init testEnv 0)).2.statics k
          = (World.init testEnv 0).statics k ∧
      (Singleton.get testEnv Counter 0 (World.init testEnv 0)).2.ctorCount k
          = (World.init testEnv 0).ctorCount k) :=
  ⟨rfl, rfl, counter_globalsOnly,
    fun calls =>
      ((later_get_pure_read testEnv Counter 0 (World.init testEnv 0) ⟨0⟩ rfl).1 calls).2.1,
    (later_get_pure_read testEnv Counter 0 (World.init testEnv 0) ⟨0⟩ rfl).2.1 rfl,
    (later_get_pure_read testEnv Counter 0 (World.init testEnv 0) ⟨0⟩ rfl).2.2
      counter_globalsOnly⟩

/-- C7 as stated fails: `Thrower` is default-constructible, and the first
`Singleton<Thrower,0>::get()` of the program returns no reference: the exception
thrown by the constructor leaves `get`. -/
theorem get_never_fails_counterexample :
    (Singleton.get testEnv Thrower 0 (World.init testEnv 0)).1 = .error () ∧
    ¬ ∃ r : Ref Thrower,
      (Singleton.get testEnv Thrower 0 (World.init testEnv 0)).1 = .ok r := by
  refine ⟨rfl, ?_⟩
  rintro ⟨r, hr⟩
  have h : (Singleton.get testEnv Thrower 0 (World.init testEnv 0)).1 = .error () := rfl
  rw [h] at hr
  cases hr

/-- C7, amended: for a value type `V` whose default constructor does not throw,
in every state `Singleton<V,i>::get()` returns a reference and the cell behind
the reference holds a constructed object when `get` returns.  For every value
type `V`, `Singleton<V,i>::index()` returns the integer `i`.  And for every
value type `V`, when `get` finds the static uninitialised and the run of the
constructor throws `e`, the exception `e` leaves `get`, in the state the
constructor left, with the static still uninitialised. -/
theorem get_and_index_never_fail (E : Env τ) (V : τ) :
    (NoThrow E V → ∀ (i : Int) (w : World E), ∃ (r : Ref V) (obj : E.Obj V),
      (Singleton.get E V i w).1 = .ok r ∧ r.read (Singleton.get E V i w).2 = some obj) ∧
    (∀ (i : Int) (w : World E), (Singleton.index E V i w).1 = i) ∧
    (∀ (i : Int) (w w₂ : World E) (e : E.ε), w.statics ⟨V, i⟩ = none →
      ctorRun E V ((w.logCall ⟨V, i⟩).logCtor ⟨V, i⟩) = (.error e, w₂) →
      Singleton.get E V i w = (.error e, w₂) ∧
      (Singleton.get E V i w).2.statics ⟨V, i⟩ = none) := by
  refine ⟨fun hno i w => ?_, fun _ _ => rfl, fun i w w₂ e hn hc => ?_⟩
  · have hok : (Singleton.get E V i w).1 = .ok ⟨i⟩ := by
      rcases get_cases V i w with ⟨p, _, hg⟩ | ⟨obj, g, _, _, hg⟩ | ⟨e, g, _, hctor, hg⟩
      · rw [hg]
      · rw [hg]
      · obtain ⟨obj, hobj⟩ := hno ((w.logCall ⟨V, i⟩).logCtor ⟨V, i⟩)
        rw [hctor] at hobj
        simp at hobj
    obtain ⟨p, hp⟩ := get_ok_initialised hok
    exact ⟨⟨i⟩, p.mStorage, hok, by simp [Ref.read, hp]⟩
  · have hg : Singleton.get E V i w = (.error e, w₂) := by
      simp only [Singleton.get, hn, hc]
    refine ⟨hg, ?_⟩
    have h0 : ((w.logCall ⟨V, i⟩).logCtor ⟨V, i⟩).ctorCount ⟨V, i⟩
          = ((w.logCall ⟨V, i⟩).logCtor ⟨V, i⟩).ctorCount ⟨V, i⟩ ∧
        ((⟨V, i⟩ : Key τ) ∈ ((w.logCall ⟨V, i⟩).logCtor ⟨V, i⟩).getCalls ↔ True) ∧
        (((w.logCall ⟨V, i⟩).logCtor ⟨V, i⟩).statics ⟨V, i⟩).isSome = false := by
      refine ⟨rfl, ?_, ?_⟩
      · simp [World.logCall, World.logCtor]
      · simp [World.logCall, World.logCtor, hn]
    have h2 := ctorRun_frame ⟨V, i⟩ _ True false _ h0
    rw [hc] at h2
    rw [hg]
    simpa using h2.2.2

/-- The default constructor of the test type `Nested`, which calls
`Singleton<Counter,9>::get()`, does not throw. -/
theorem nested_noThrow : NoThrow testEnv Nested := by
  intro w
  rw [ctorRun_eq]
  cases h : w.statics ⟨Counter, 9⟩ with
  | none =>
    exact ⟨⟨0⟩, by
      simp [exec, Singleton.get, ctorRun, h, getBelow, World.logCall, World.logCtor]
      rfl⟩
  | some p =>
    exact ⟨⟨p.mStorage.field⟩, by
      simp [exec, Singleton.get, h, Ref.read, World.logCall]⟩

/-- Witness for C7: `Nested`, whose constructor calls `get` and does not throw,
and `Thrower`, whose constructor throws, both at the start of the program. -/
theorem get_and_index_never_fail_witness :
    NoThrow testEnv Nested ∧
    (∃ (r : Ref Nested) (obj : NestedObj),
      (Singleton.get testEnv Nested 4 (World.init testEnv 0)).1 = .ok r ∧
      r.read (Singleton.get testEnv Nested 4 (World.init testEnv 0)).2 = some obj) ∧
    (Singleton.index testEnv Thrower 4 (World.init testEnv 0)).1 = 4 ∧
    (World.init testEnv 0).statics ⟨Thrower, 4⟩ = none ∧
    (Singleton.get testEnv Thrower 4 (World.init testEnv 0)).1 = .error () ∧
    (Singleton.get testEnv Thrower 4 (World.init testEnv 0)).2.statics ⟨Thrower, 4⟩ = none :=
  ⟨nested_noThrow,
    (get_and_index_never_fail testEnv Nested).1 nested_noThrow 4 (World.init testEnv 0),
    (get_and_index_never_fail testEnv Thrower).2.1 4 (World.init testEnv 0),
    rfl,
    congrArg Prod.fst
      ((get_and_index_never_fail testEnv Thrower).2.2 4 (World.init testEnv 0) _ () rfl rfl).1,
    ((get_and_index_never_fail testEnv Thrower).2.2 4 (World.init testEnv 0) _ () rfl rfl).2⟩

/-- C9: the tag defaults to `0` and `IndexedSingleton` is `Singleton`:
`Singleton<V>::get()` is `Singleton<V,0>::get()` and `Singleton<V>::index()`
returns `0`; `IndexedSingleton<V,i>` has the `get` and the `index` of
`Singleton<V,i>`, and `IndexedSingleton<V>` those of `Singleton<V,0>`. -/
theorem default_tag_and_alias (E : Env τ) (V : τ) (w : World E) :
    Singleton.get E V (tagOrDefault none) w = Singleton.get E V 0 w ∧
    (Singleton.index E V (tagOrDefault none) w).1 = 0 ∧
    (∀ i : Int,
      IndexedSingleton.get E V (some i) w = Singleton.get E V i w ∧
      IndexedSingleton.index E V (some i) w = Singleton.index E V i w) ∧
    IndexedSingleton.get E V none w = Singleton.get E V 0 w ∧
    IndexedSingleton.index E V none w = Singleton.index E V 0 w :=
  ⟨rfl, rfl, fun _ => ⟨rfl, rfl⟩, rfl, rfl⟩

/-- C10: `Singleton<V,i>::index()` has no side effect: it leaves the whole state
unchanged, so the static of `(V, i)` and the construction count are as before,
a following `Singleton<V,i>::get()` behaves exactly as it would have without
the call of `index` (when it would have been the constructing first access, it
still is), and removing every call of `index` from a sequence of calls does not
change the state the sequence ends in. -/
theorem index_no_side_effect (E : Env τ) (V : τ) (i : Int) (w : World E) :
    (Singleton.index E V i w).2 = w ∧
    (Singleton.index E V i w).2.statics ⟨V, i⟩ = w.statics ⟨V, i⟩ ∧
    (Singleton.index E V i w).2.ctorCount ⟨V, i⟩ = w.ctorCount ⟨V, i⟩ ∧
    Singleton.get E V i (Singleton.index E V i w).2 = Singleton.get E V i w ∧
    (∀ calls : List (Call E), run E (calls.filter fun c => !c.isIndex) w = run E calls w) :=
  ⟨rfl, rfl, rfl, rfl, fun calls => run_erase_index calls w⟩

end Claims

end Oscillations
